import Mathlib

/-!
Shallow embedding of `src/solver.py` (class `SchoolScheduler`) of the
HSHS-scheduler repository, together with the minimal pandas behaviour the
decoder relies on (`pd.DataFrame` column inference and
`DataFrame.sort_values` raising `KeyError` on a missing sort column).

Machine model:
* a raw requirement record (`courses_data` element) is a `Course`;
* the solver's returned assignment is a function `a : Nat → Nat → Nat → Bool`
  giving the 0/1 value of decision variable `(c_idx, day, period)`;
* the constraint families added by `_add_hard_constraints` become the
  predicate `satisfiesConstraints`;
* Python exceptions (pandas `KeyError`, dict `KeyError`) become `Except.error`.
-/

/-- One raw requirement record `{'class': …, 'teacher': …, 'subject': …, 'hours': …}`.
`className` embeds the `class` dict key (a Lean keyword); `hours` is a Python
int, so it is embedded as `Int` (the source never validates it). -/
structure Course where
  className : String
  teacher : String
  subject : String
  hours : Int
deriving DecidableEq, Repr

/-- Default record handed to `List.getD`; every lookup in this development is
performed at an in-range index, mirroring `enumerate(self.courses)`. -/
def cdefault : Course := ⟨"", "", "", 0⟩

/-- Python's `<` on strings: code-point lexicographic comparison. This is
core's `String.lt` (`s₁.data < s₂.data`) written on the character lists
directly, so that decision procedures evaluate. -/
def strLt (a b : String) : Prop := List.lt a.data b.data

instance : DecidableRel strLt := fun a b =>
  List.hasDecidableLt a.data b.data

/-- Python's `<=` on strings, used as the sorting relation of `sorted`. -/
def strLe (a b : String) : Prop := strLt a b ∨ a = b

instance : DecidableRel strLe := fun a b => by
  unfold strLe; infer_instance

/-- `self.all_teachers = sorted(list(set(c['teacher'] for c in self.courses)))`:
deduplicate, then sort ascending (Python's `sorted` modelled by a stable
structural sort; the element set and the resulting ascending order agree). -/
def all_teachers (courses : List Course) : List String :=
  ((courses.map (·.teacher)).dedup).insertionSort strLe

/-- `self.all_classes = sorted(list(set(c['class'] for c in self.courses)))`. -/
def all_classes (courses : List Course) : List String :=
  ((courses.map (·.className)).dedup).insertionSort strLe

/-- `_create_variables`: one boolean variable per `(c_idx, d, p)`, created in
the triple-nested loop order `c_idx`, then `d`, then `p`. -/
def varKeys (n days periods : Nat) : List (Nat × Nat × Nat) :=
  (List.range n).flatMap fun c =>
    (List.range days).flatMap fun d =>
      (List.range periods).map fun p => (c, d, p)

/-- State built by `SchoolScheduler.__init__` (minus the opaque CpModel /
CpSolver handles): the stored inputs and the keys of `self.vars`. -/
structure SchoolScheduler where
  courses : List Course
  days : Nat
  periods : Nat
  vars : List (Nat × Nat × Nat)
deriving Repr

/-- `SchoolScheduler.__init__(courses_data, days, periods)`: the input list is
stored as given — the constructor performs no validation of hours or
identifiers — and `_create_variables` then `_add_hard_constraints` run. -/
def schedulerInit (courses : List Course) (days periods : Nat) : SchoolScheduler :=
  ⟨courses, days, periods, varKeys courses.length days periods⟩

/-- Value of a boolean decision variable inside a linear expression. -/
def boolVal (b : Bool) : Int := if b then 1 else 0

/-- `sum(self.vars[(c_idx, d, p)] for d in range(self.days) for p in range(self.periods))`. -/
def courseVarsSum (days periods : Nat) (a : Nat → Nat → Nat → Bool) (c : Nat) : Int :=
  ((List.range days).flatMap fun d =>
    (List.range periods).map fun p => boolVal (a c d p)).sum

/-- Constraint family A (`課時滿足`): for every course index, the sum of its
variables over all slots equals `course['hours']` exactly. -/
def hourConstraintsHold (courses : List Course) (days periods : Nat)
    (a : Nat → Nat → Nat → Bool) : Prop :=
  ∀ c < courses.length, courseVarsSum days periods a c = (courses.getD c cdefault).hours

/-- `class_course_indices = [i for i, c in enumerate(self.courses) if c['class'] == cls]`. -/
def class_course_indices (courses : List Course) (cls : String) : List Nat :=
  (List.range courses.length).filter fun i => (courses.getD i cdefault).className == cls

/-- `teacher_course_indices = [i for i, c in enumerate(self.courses) if c['teacher'] == teacher]`. -/
def teacher_course_indices (courses : List Course) (t : String) : List Nat :=
  (List.range courses.length).filter fun i => (courses.getD i cdefault).teacher == t

/-- `sum(self.vars[(idx, d, p)] for idx in idxs)`. -/
def slotGroupSum (a : Nat → Nat → Nat → Bool) (idxs : List Nat) (d p : Nat) : Int :=
  (idxs.map fun i => boolVal (a i d p)).sum

/-- Constraint family B (`班級不衝堂`): for every class in `all_classes` and
every slot, the variables of that class's courses sum to at most 1. -/
def classConstraintsHold (courses : List Course) (days periods : Nat)
    (a : Nat → Nat → Nat → Bool) : Prop :=
  ∀ cls ∈ all_classes courses, ∀ d < days, ∀ p < periods,
    slotGroupSum a (class_course_indices courses cls) d p ≤ 1

/-- Constraint family C (`老師不衝堂`): same as B, grouped by teacher. -/
def teacherConstraintsHold (courses : List Course) (days periods : Nat)
    (a : Nat → Nat → Nat → Bool) : Prop :=
  ∀ t ∈ all_teachers courses, ∀ d < days, ∀ p < periods,
    slotGroupSum a (teacher_course_indices courses t) d p ≤ 1

/-- A 0/1 assignment satisfies the model built by `_add_hard_constraints`
iff all three hard-constraint families hold. No other constraint exists. -/
def satisfiesConstraints (courses : List Course) (days periods : Nat)
    (a : Nat → Nat → Nat → Bool) : Prop :=
  hourConstraintsHold courses days periods a ∧
    classConstraintsHold courses days periods a ∧
    teacherConstraintsHold courses days periods a

instance (courses : List Course) (days periods : Nat) (a : Nat → Nat → Nat → Bool) :
    Decidable (hourConstraintsHold courses days periods a) := by
  unfold hourConstraintsHold; infer_instance

instance (courses : List Course) (days periods : Nat) (a : Nat → Nat → Nat → Bool) :
    Decidable (classConstraintsHold courses days periods a) := by
  unfold classConstraintsHold; infer_instance

instance (courses : List Course) (days periods : Nat) (a : Nat → Nat → Nat → Bool) :
    Decidable (teacherConstraintsHold courses days periods a) := by
  unfold teacherConstraintsHold; infer_instance

instance (courses : List Course) (days periods : Nat) (a : Nat → Nat → Nat → Bool) :
    Decidable (satisfiesConstraints courses days periods a) := by
  unfold satisfiesConstraints; infer_instance

/-- `days_map = {0: '週一', 1: '週二', 2: '週三', 3: '週四', 4: '週五'}` —
a five-entry dict; `none` models the `KeyError` raised for any other key. -/
def days_map : Nat → Option String
  | 0 => some "週一"
  | 1 => some "週二"
  | 2 => some "週三"
  | 3 => some "週四"
  | 4 => some "週五"
  | _ => none

/-- `f'第 \x7bp+1\x7d 節'` — the 1-based period label; total in `p`. -/
def periodLabel (p : Nat) : String := "第 " ++ toString (p + 1) ++ " 節"

/-- One appended `schedule_data` dict. Field ↔ dict-key correspondence:
`className` = `班級`, `periodLab` = `節次`, `dayLabel` = `星期`,
`subject` = `科目`, `teacher` = `老師`, `dayIdx` = `Day_Index`,
`periodIdx` = `Period_Index`. `req` records the `enumerate` index `c_idx`
the row was produced from (provenance; it is dropped by the final column
selection, exactly as `Day_Index`/`Period_Index` are). -/
structure Row where
  req : Nat
  className : String
  periodLab : String
  dayLabel : String
  subject : String
  teacher : String
  dayIdx : Nat
  periodIdx : Nat
deriving DecidableEq, Repr

/-- The dict appended for variable `(c, d, p)` when its solved value is 1,
given the day label `dl` already fetched from `days_map`. -/
def mkRow (courses : List Course) (c d p : Nat) (dl : String) : Row :=
  let course := courses.getD c cdefault
  ⟨c, course.className, periodLabel p, dl, course.subject, course.teacher, d, p⟩

/-- The `schedule_data` accumulation loop of `_format_solution`: iterate the
variable keys in creation order; whenever the solved value is 1, look up
`days_map[d]` (`KeyError` = `.error`) and append the row. -/
def buildRows (courses : List Course) (a : Nat → Nat → Nat → Bool) :
    List (Nat × Nat × Nat) → Except String (List Row)
  | [] => .ok []
  | (c, d, p) :: rest =>
    if a c d p then
      match days_map d with
      | none => .error "KeyError: days_map"
      | some dl =>
        match buildRows courses a rest with
        | .error e => .error e
        | .ok rows => .ok (mkRow courses c d p dl :: rows)
    else
      buildRows courses a rest

/-- The slice of a pandas DataFrame this program observes: its column list
and its rows. -/
structure DataFrame where
  columns : List String
  rows : List Row
deriving Repr

/-- Columns of a frame built from a nonempty `schedule_data` record list. -/
def scheduleColumns : List String :=
  ["班級", "節次", "星期", "科目", "老師", "Day_Index", "Period_Index"]

/-- `pd.DataFrame(records)`: pandas infers the columns from the records, so an
empty record list produces a frame with **no columns at all**. -/
def dataFrameOfRecords (rows : List Row) : DataFrame :=
  ⟨if rows.isEmpty then [] else scheduleColumns, rows⟩

/-- The sort key of `sort_values(by=['班級', 'Day_Index', 'Period_Index'])`:
lexicographic on (`班級`, `Day_Index`, `Period_Index`). -/
def rowLe (r1 r2 : Row) : Prop :=
  strLt r1.className r2.className ∨
    (r1.className = r2.className ∧
      (r1.dayIdx < r2.dayIdx ∨ (r1.dayIdx = r2.dayIdx ∧ r1.periodIdx ≤ r2.periodIdx)))

instance : DecidableRel rowLe := fun r1 r2 => by unfold rowLe; infer_instance

lemma strLt_iff_lex (a b : String) : strLt a b ↔ a.data < b.data :=
  (List.lt_iff_lex_lt a.data b.data).trans Iff.rfl

lemma strLt_trans {a b c : String} (h1 : strLt a b) (h2 : strLt b c) : strLt a c := by
  rw [strLt_iff_lex] at h1 h2 ⊢
  exact lt_trans h1 h2

lemma strLt_trichotomy (a b : String) : strLt a b ∨ a = b ∨ strLt b a := by
  rcases lt_trichotomy a.data b.data with h | h | h
  · exact Or.inl ((strLt_iff_lex a b).mpr h)
  · refine Or.inr (Or.inl ?_)
    cases a; cases b; cases h; rfl
  · exact Or.inr (Or.inr ((strLt_iff_lex b a).mpr h))

instance : IsTotal Row rowLe := by
  constructor
  intro x y
  unfold rowLe
  rcases strLt_trichotomy x.className y.className with h | h | h
  · exact Or.inl (Or.inl h)
  · rcases Nat.lt_trichotomy x.dayIdx y.dayIdx with h2 | h2 | h2
    · exact Or.inl (Or.inr ⟨h, Or.inl h2⟩)
    · rcases Nat.le_total x.periodIdx y.periodIdx with h3 | h3
      · exact Or.inl (Or.inr ⟨h, Or.inr ⟨h2, h3⟩⟩)
      · exact Or.inr (Or.inr ⟨h.symm, Or.inr ⟨h2.symm, h3⟩⟩)
    · exact Or.inr (Or.inr ⟨h.symm, Or.inl h2⟩)
  · exact Or.inr (Or.inl h)

instance : IsTrans Row rowLe := by
  constructor
  intro x y z hxy hyz
  unfold rowLe at hxy hyz ⊢
  rcases hxy with h1 | ⟨e1, h1⟩ <;> rcases hyz with h2 | ⟨e2, h2⟩
  · exact Or.inl (strLt_trans h1 h2)
  · exact Or.inl (e2 ▸ h1)
  · exact Or.inl (e1 ▸ h2)
  · refine Or.inr ⟨e1.trans e2, ?_⟩
    rcases h1 with h1 | ⟨f1, h1⟩ <;> rcases h2 with h2 | ⟨f2, h2⟩ <;> omega

/-- The fixed `by` list of the single `sort_values` call in the source. -/
def by_list : List String := ["班級", "Day_Index", "Period_Index"]

/-- `df.sort_values(by=...)` for the fixed key above: pandas raises `KeyError`
when a requested sort column is absent from the frame; otherwise it returns
the rows ordered by the three-column key (pandas sorts with a fixed
deterministic algorithm; `insertionSort` by `rowLe` realises that key — no
property about the relative order of key-equal rows is asserted anywhere). -/
def sort_values (df : DataFrame) (byCols : List String) : Except String DataFrame :=
  if byCols.all fun c => df.columns.contains c then
    .ok ⟨df.columns, df.rows.insertionSort rowLe⟩
  else
    .error "KeyError: sort column"

/-- `_format_solution`: build `schedule_data` from the solved values, wrap it
in a DataFrame, sort by (`班級`, `Day_Index`, `Period_Index`), and return the
rows. (The final `df[['班級','星期','節次','科目','老師']]` selection only
drops the two index columns and the provenance; it keeps row content and
order, so the sorted row list is the returned timetable.) -/
def format_solution (courses : List Course) (days periods : Nat)
    (a : Nat → Nat → Nat → Bool) : Except String (List Row) :=
  match buildRows courses a (varKeys courses.length days periods) with
  | .error e => .error e
  | .ok rows =>
    match sort_values (dataFrameOfRecords rows) by_list with
    | .error e => .error e
    | .ok df => .ok df.rows

/-- The verdicts `cp_model.CpSolver.Solve` can return. A solver timeout is
reported as `unknown` (`cp_model.UNKNOWN`). -/
inductive CpSolverStatus where
  | optimal
  | feasible
  | infeasible
  | modelInvalid
  | unknown
deriving DecidableEq, Repr

/-- `SchoolScheduler.solve()`: on `OPTIMAL`/`FEASIBLE` it returns
`_format_solution()` (a Python exception raised while formatting propagates,
modelled by `.error`); on **any** other status it returns `None`. The method
takes no time-budget parameter and never sets one on the solver. -/
def solve (courses : List Course) (days periods : Nat)
    (status : CpSolverStatus) (a : Nat → Nat → Nat → Bool) :
    Except String (Option (List Row)) :=
  if status = .optimal ∨ status = .feasible then
    match format_solution courses days periods a with
    | .error e => .error e
    | .ok rows => .ok (some rows)
  else
    .ok none

/-! ### Generic bridging lemmas between the listwise sums of the embedding
and `Finset.range` sums. -/

lemma list_range_map_sum {M : Type*} [AddCommMonoid M] (n : Nat) (f : Nat → M) :
    ((List.range n).map f).sum = ∑ i in Finset.range n, f i := by
  induction n with
  | zero => simp
  | succ k ih =>
    rw [List.range_succ, Finset.sum_range_succ, List.map_append, List.sum_append]
    simp [ih]

lemma list_filter_map_sum {M : Type*} [AddCommMonoid M] (l : List Nat)
    (pred : Nat → Bool) (f : Nat → M) :
    ((l.filter pred).map f).sum = (l.map fun i => if pred i then f i else 0).sum := by
  induction l with
  | nil => simp
  | cons x xs ih =>
    by_cases h : pred x <;> simp [List.filter_cons, h, ih]

lemma list_sum_finset_sum_swap {M : Type*} [AddCommMonoid M] (l : List Nat)
    (s : Finset Nat) (f : Nat → Nat → M) :
    (l.map fun i => ∑ x in s, f i x).sum = ∑ x in s, (l.map fun i => f i x).sum := by
  induction l with
  | nil => simp
  | cons y ys ih => simp [ih, Finset.sum_add_distrib]

lemma list_flatMap_map_sum {M : Type*} [AddCommMonoid M] {α : Type*}
    (l : List α) (f : α → List M) :
    (l.flatMap f).sum = (l.map fun x => (f x).sum).sum := by
  rw [List.flatMap, List.sum_flatten, List.map_map]
  rfl

lemma countP_eq_sum_map {α : Type*} (l : List α) (f : α → Bool) :
    l.countP f = (l.map fun x => if f x then 1 else 0).sum := by
  induction l with
  | nil => rfl
  | cons x xs ih =>
    rw [List.countP_cons, List.map_cons, List.sum_cons, ih]
    by_cases h : f x <;> simp [h, Nat.add_comm]

/-! ### Structure of the variable-key list. -/

lemma mem_varKeys {n days periods : Nat} {t : Nat × Nat × Nat} :
    t ∈ varKeys n days periods ↔ t.1 < n ∧ t.2.1 < days ∧ t.2.2 < periods := by
  obtain ⟨c, d, p⟩ := t
  simp [varKeys, List.mem_flatMap, List.mem_map, List.mem_range]
  constructor
  · rintro ⟨c', hc', d', hd', p', hp', rfl, rfl, rfl⟩
    exact ⟨hc', hd', hp'⟩
  · rintro ⟨hc, hd, hp⟩
    exact ⟨c, hc, d, hd, p, hp, rfl, rfl, rfl⟩

lemma varKeys_length (n days periods : Nat) :
    (varKeys n days periods).length = n * days * periods := by
  unfold varKeys
  induction n with
  | zero => simp
  | succ k ih =>
    rw [List.range_succ, List.flatMap_append, List.length_append, ih]
    have h1 : ((List.range days).flatMap fun d =>
        (List.range periods).map fun p => (k, d, p)).length = days * periods := by
      rw [List.length_flatMap]
      have h2 : ((List.range days).map
          (List.length ∘ fun d => (List.range periods).map fun p => (k, d, p)))
          = (List.range days).map fun _ => periods := by
        apply List.map_congr_left
        intro d _
        simp
      rw [h2, list_range_map_sum]
      simp [Finset.sum_const, Nat.mul_comm]
    simp only [List.flatMap_cons, List.flatMap_nil, List.append_nil, h1]
    ring

lemma varKeys_countP (n days periods : Nat) (f : Nat × Nat × Nat → Bool) :
    (varKeys n days periods).countP f =
      ∑ c in Finset.range n, ∑ d in Finset.range days, ∑ p in Finset.range periods,
        if f (c, d, p) then 1 else 0 := by
  rw [countP_eq_sum_map]
  unfold varKeys
  rw [List.map_flatMap]
  rw [list_flatMap_map_sum, ← list_range_map_sum]
  congr 1
  apply List.map_congr_left
  intro c _
  rw [List.map_flatMap, list_flatMap_map_sum, ← list_range_map_sum]
  congr 1
  apply List.map_congr_left
  intro d _
  rw [List.map_map, ← list_range_map_sum]
  rfl

/-! ### Characterisation of the decoding loop. -/

/-- Total description of the row built for key `t`: in every error-free run of
the loop the `days_map` hit equals this `getD`. -/
def mkRowD (courses : List Course) (t : Nat × Nat × Nat) : Row :=
  mkRow courses t.1 t.2.1 t.2.2 ((days_map t.2.1).getD "")

@[simp] lemma mkRowD_req (courses : List Course) (t : Nat × Nat × Nat) :
    (mkRowD courses t).req = t.1 := rfl

@[simp] lemma mkRowD_dayIdx (courses : List Course) (t : Nat × Nat × Nat) :
    (mkRowD courses t).dayIdx = t.2.1 := rfl

@[simp] lemma mkRowD_periodIdx (courses : List Course) (t : Nat × Nat × Nat) :
    (mkRowD courses t).periodIdx = t.2.2 := rfl

@[simp] lemma mkRowD_className (courses : List Course) (t : Nat × Nat × Nat) :
    (mkRowD courses t).className = (courses.getD t.1 cdefault).className := rfl

@[simp] lemma mkRowD_teacher (courses : List Course) (t : Nat × Nat × Nat) :
    (mkRowD courses t).teacher = (courses.getD t.1 cdefault).teacher := rfl

lemma buildRows_eq_filterMap {courses : List Course} {a : Nat → Nat → Nat → Bool} :
    ∀ {ts : List (Nat × Nat × Nat)} {rows : List Row},
      buildRows courses a ts = .ok rows →
      rows = ts.filterMap fun t =>
        if a t.1 t.2.1 t.2.2 then some (mkRowD courses t) else none := by
  intro ts
  induction ts with
  | nil =>
    intro rows h
    simp only [buildRows, Except.ok.injEq] at h
    simp [← h]
  | cons t rest ih =>
    obtain ⟨c, d, p⟩ := t
    intro rows h
    simp only [buildRows] at h
    by_cases ha : a c d p
    · rw [if_pos ha] at h
      cases hd : days_map d with
      | none => rw [hd] at h; cases h
      | some dl =>
        rw [hd] at h
        cases hb : buildRows courses a rest with
        | error e => rw [hb] at h; cases h
        | ok rows' =>
          rw [hb] at h
          cases h
          have hrow : mkRow courses c d p dl = mkRowD courses (c, d, p) := by
            simp [mkRowD, hd]
          rw [List.filterMap_cons]
          simp only [ha, if_true]
          rw [hrow, ih hb]
    · rw [if_neg ha] at h
      rw [List.filterMap_cons]
      simp only [ha, if_false]
      exact ih h

lemma buildRows_congr {courses : List Course} {a1 a2 : Nat → Nat → Nat → Bool} :
    ∀ {ts : List (Nat × Nat × Nat)},
      (∀ t ∈ ts, a1 t.1 t.2.1 t.2.2 = a2 t.1 t.2.1 t.2.2) →
      buildRows courses a1 ts = buildRows courses a2 ts := by
  intro ts
  induction ts with
  | nil => intro _; rfl
  | cons t rest ih =>
    obtain ⟨c, d, p⟩ := t
    intro h
    have ht : a1 c d p = a2 c d p := h (c, d, p) (List.mem_cons_self _ _)
    have hrest := ih fun t htm => h t (List.mem_cons_of_mem _ htm)
    simp only [buildRows, ht, hrest]

lemma days_map_isSome_of_lt {d : Nat} (h : d < 5) : ∃ s, days_map d = some s := by
  match d, h with
  | 0, _ => exact ⟨"週一", rfl⟩
  | 1, _ => exact ⟨"週二", rfl⟩
  | 2, _ => exact ⟨"週三", rfl⟩
  | 3, _ => exact ⟨"週四", rfl⟩
  | 4, _ => exact ⟨"週五", rfl⟩

lemma buildRows_ok_of_days_lt (courses : List Course) (a : Nat → Nat → Nat → Bool) :
    ∀ (ts : List (Nat × Nat × Nat)), (∀ t ∈ ts, t.2.1 < 5) →
      ∃ rows, buildRows courses a ts = .ok rows := by
  intro ts
  induction ts with
  | nil => intro _; exact ⟨[], rfl⟩
  | cons t rest ih =>
    obtain ⟨c, d, p⟩ := t
    intro h
    obtain ⟨rows', hrest⟩ := ih fun t htm => h t (List.mem_cons_of_mem _ htm)
    by_cases ha : a c d p
    · obtain ⟨dl, hdl⟩ := days_map_isSome_of_lt (h (c, d, p) (List.mem_cons_self _ _))
      refine ⟨mkRow courses c d p dl :: rows', ?_⟩
      simp [buildRows, ha, hdl, hrest]
    · refine ⟨rows', ?_⟩
      simp [buildRows, ha, hrest]

lemma format_solution_ok {courses : List Course} {days periods : Nat}
    {a : Nat → Nat → Nat → Bool} {tt : List Row}
    (h : format_solution courses days periods a = .ok tt) :
    ∃ rows, buildRows courses a (varKeys courses.length days periods) = .ok rows ∧
      rows ≠ [] ∧ tt = rows.insertionSort rowLe := by
  cases hb : buildRows courses a (varKeys courses.length days periods) with
  | error e =>
    exfalso
    have hfs : format_solution courses days periods a = .error e := by
      unfold format_solution
      rw [hb]
    rw [hfs] at h
    cases h
  | ok rows =>
    refine ⟨rows, rfl, ?_⟩
    cases rows with
    | nil =>
      exfalso
      have hfs : format_solution courses days periods a = .error "KeyError: sort column" := by
        unfold format_solution
        rw [hb]
        rfl
      rw [hfs] at h
      cases h
    | cons r rs =>
      have hfs : format_solution courses days periods a =
          .ok ((r :: rs).insertionSort rowLe) := by
        unfold format_solution
        rw [hb]
        rfl
      rw [hfs] at h
      cases h
      exact ⟨List.cons_ne_nil r rs, rfl⟩

lemma format_ok_countP {courses : List Course} {days periods : Nat}
    {a : Nat → Nat → Nat → Bool} {tt : List Row}
    (h : format_solution courses days periods a = .ok tt) (q : Row → Bool) :
    tt.countP q = (varKeys courses.length days periods).countP
      fun t => a t.1 t.2.1 t.2.2 && q (mkRowD courses t) := by
  obtain ⟨rows, hb, _, htt⟩ := format_solution_ok h
  rw [htt, (List.perm_insertionSort rowLe rows).countP_eq]
  rw [buildRows_eq_filterMap hb, List.countP_filterMap]
  congr 1
  funext t
  by_cases ha : a t.1 t.2.1 t.2.2 <;> simp [ha]

/-! ### Bridges between the constraint sums and `Finset.range` sums. -/

lemma mem_all_classes {courses : List Course} {i : Nat} (h : i < courses.length) :
    (courses.getD i cdefault).className ∈ all_classes courses := by
  unfold all_classes
  rw [List.mem_insertionSort, List.mem_dedup]
  refine List.mem_map.mpr ⟨courses.getD i cdefault, ?_, rfl⟩
  rw [List.getD_eq_getElem?_getD, List.getElem?_eq_getElem h]
  exact List.getElem_mem h

lemma mem_all_teachers {courses : List Course} {i : Nat} (h : i < courses.length) :
    (courses.getD i cdefault).teacher ∈ all_teachers courses := by
  unfold all_teachers
  rw [List.mem_insertionSort, List.mem_dedup]
  refine List.mem_map.mpr ⟨courses.getD i cdefault, ?_, rfl⟩
  rw [List.getD_eq_getElem?_getD, List.getElem?_eq_getElem h]
  exact List.getElem_mem h

lemma courseVarsSum_eq (days periods : Nat) (a : Nat → Nat → Nat → Bool) (c : Nat) :
    courseVarsSum days periods a c =
      ∑ d in Finset.range days, ∑ p in Finset.range periods, boolVal (a c d p) := by
  unfold courseVarsSum
  rw [list_flatMap_map_sum, list_range_map_sum]
  exact Finset.sum_congr rfl fun d _ => list_range_map_sum periods _

lemma slotGroupSum_filter (n : Nat) (g : Nat → Bool) (a : Nat → Nat → Nat → Bool)
    (d p : Nat) :
    slotGroupSum a ((List.range n).filter g) d p =
      ∑ i in Finset.range n, if g i then boolVal (a i d p) else 0 := by
  unfold slotGroupSum
  rw [list_filter_map_sum, list_range_map_sum]

lemma intCast_ite_one (b : Bool) : (((if b then 1 else 0 : Nat)) : Int) = boolVal b := by
  cases b <;> simp [boolVal]

lemma sum_range_ite_point {M : Type*} [AddCommMonoid M] (n c : Nat) (f : Nat → M) :
    (∑ x in Finset.range n, if x = c then f x else 0) = if c < n then f c else 0 := by
  rw [Finset.sum_ite_eq' (Finset.range n) c f]
  simp [Finset.mem_range]

lemma ite_and_zero {P Q : Prop} [Decidable P] [Decidable Q] {M : Type*}
    [AddCommMonoid M] (x : M) :
    (if P ∧ Q then x else 0) = if P then (if Q then x else 0) else 0 := by
  split_ifs <;> simp_all

/-! ### Concrete data used by witnesses and counterexamples. -/

/-- Two requirements in one class, distinct teachers, one hour each. -/
def demoCourses : List Course := [⟨"101", "Wang", "Math", 1⟩, ⟨"101", "Lee", "Eng", 1⟩]

/-- A satisfying assignment for `demoCourses` on a 1-day × 2-period grid. -/
def demoAssign : Nat → Nat → Nat → Bool := fun c d p =>
  (c == 0 && d == 0 && p == 0) || (c == 1 && d == 0 && p == 1)

/-- The timetable decoded from `demoAssign`. -/
def demoTT : List Row :=
  [⟨0, "101", "第 1 節", "週一", "Math", "Wang", 0, 0⟩,
   ⟨1, "101", "第 2 節", "週一", "Eng", "Lee", 0, 1⟩]

/-- Malformed catalog: negative hours and empty identifiers, plus zero hours. -/
def badCourses : List Course := [⟨"", "", "", -3⟩, ⟨"101", "T", "S", 0⟩]

/-- C3, counterexample: on an input whose records have non-positive hours and
empty identifiers, `__init__` does not fail — it creates all
`2 × 5 × 7 = 70` decision variables, and the model reaches the solver
(`solve` runs and returns its normal verdict value). -/
theorem C3_cex_no_validation :
    ((schedulerInit badCourses 5 7).vars).length = 70 ∧
    solve badCourses 5 7 .infeasible (fun _ _ _ => false) = .ok none :=
  ⟨rfl, rfl⟩

/-- C3, amended: `SchoolScheduler.__init__` performs no validation at all —
for every input list (malformed records included) it stores the records
unchanged and creates exactly `|courses| × days × periods` decision
variables; no `InvalidRequirementError` exists in the code. -/
theorem C3_init_never_validates (courses : List Course) (days periods : Nat) :
    (schedulerInit courses days periods).courses = courses ∧
    ((schedulerInit courses days periods).vars).length =
      courses.length * days * periods :=
  ⟨rfl, varKeys_length courses.length days periods⟩

/-- C4, counterexample: `solve` maps the solver's timeout verdict (`UNKNOWN`)
and `INFEASIBLE` to the **same** outcome `None`; the caller cannot
distinguish a timeout from infeasibility, and no time budget is accepted. -/
theorem C4_cex_timeout_indistinguishable :
    solve demoCourses 5 7 .unknown demoAssign = .ok none ∧
    solve demoCourses 5 7 .infeasible demoAssign = .ok none ∧
    solve demoCourses 5 7 .unknown demoAssign =
      solve demoCourses 5 7 .infeasible demoAssign :=
  ⟨rfl, rfl, rfl⟩

/-- C4, amended: `solve()` takes no time-budget parameter; every status other
than `OPTIMAL` and `FEASIBLE` — including the engine's timeout verdict
`UNKNOWN` — is returned as `None`, identically to infeasibility. -/
theorem C4_nonfeasible_statuses_return_none (courses : List Course)
    (days periods : Nat) (a : Nat → Nat → Nat → Bool) (status : CpSolverStatus)
    (h1 : status ≠ .optimal) (h2 : status ≠ .feasible) :
    solve courses days periods status a = .ok none := by
  unfold solve
  rw [if_neg]
  rintro (h | h)
  · exact h1 h
  · exact h2 h

theorem C4_witness :
    solve demoCourses 5 7 CpSolverStatus.unknown demoAssign = .ok none :=
  C4_nonfeasible_statuses_return_none demoCourses 5 7 demoAssign .unknown
    (by decide) (by decide)

/-- Requirement list and assignment exercising day index 5 (a sixth day). -/
def c6Courses : List Course := [⟨"101", "T", "S", 1⟩]

/-- Assignment placing the single required hour on day 5, period 0. -/
def c6Assign : Nat → Nat → Nat → Bool := fun c d p => c == 0 && d == 5 && p == 0

/-- C6, counterexample: `days_map` is a fixed five-entry dict, so with
`days = 6` a constraint-satisfying assignment whose lesson falls on day
index 5 makes decoding raise `KeyError` — decoding does fail on labeling
even though the core accepted `days = 6`. -/
theorem C6_cex_day_label_missing :
    days_map 5 = none ∧
    satisfiesConstraints c6Courses 6 1 c6Assign ∧
    solve c6Courses 6 1 .feasible c6Assign = .error "KeyError: days_map" :=
  ⟨rfl, by decide, rfl⟩

/-- C6, amended: day labels are only defined for indices 0–4; whenever
`days ≤ 5` every reachable day index has a label and the row-building pass
of decoding never fails (period labels are total for every index by
construction). For `days > 5` the lookup at index 5 is undefined. -/
theorem C6_labels_total_iff_days_le5 (days periods n : Nat) (hdays : days ≤ 5)
    (courses : List Course) (a : Nat → Nat → Nat → Bool) :
    (∀ d < days, ∃ s, days_map d = some s) ∧
    (∃ rows, buildRows courses a (varKeys n days periods) = .ok rows) := by
  constructor
  · intro d hd
    exact days_map_isSome_of_lt (lt_of_lt_of_le hd hdays)
  · apply buildRows_ok_of_days_lt
    intro t ht
    exact lt_of_lt_of_le (mem_varKeys.mp ht).2.1 hdays

theorem C6_witness :
    (∀ d < 5, ∃ s, days_map d = some s) ∧
    (∃ rows, buildRows demoCourses demoAssign (varKeys 2 5 7) = .ok rows) :=
  C6_labels_total_iff_days_le5 5 7 2 (by decide) demoCourses demoAssign

/-- C8: decoding is deterministic — it depends only on the restriction of the
raw 0/1 assignment to the variable space, so any two assignments that agree
on every variable key decode to identical timetables (content and order). -/
theorem C8_decode_deterministic (courses : List Course) (days periods : Nat)
    (a1 a2 : Nat → Nat → Nat → Bool)
    (h : ∀ c < courses.length, ∀ d < days, ∀ p < periods, a1 c d p = a2 c d p) :
    format_solution courses days periods a1 = format_solution courses days periods a2 := by
  have hcong : ∀ t ∈ varKeys courses.length days periods,
      a1 t.1 t.2.1 t.2.2 = a2 t.1 t.2.1 t.2.2 := by
    intro t ht
    obtain ⟨h1, h2, h3⟩ := mem_varKeys.mp ht
    exact h t.1 h1 t.2.1 h2 t.2.2 h3
  unfold format_solution
  rw [buildRows_congr hcong]

/-- Assignment used in the C8 witness. -/
def c8AssignA : Nat → Nat → Nat → Bool := fun c d p => c == 0 && d == 0 && p == 0

/-- A syntactically different assignment agreeing with `c8AssignA` on the
1 × 1 × 1 variable space (it differs from day 3 on). -/
def c8AssignB : Nat → Nat → Nat → Bool := fun c d p =>
  (c == 0 && d == 0 && p == 0) || decide (3 ≤ d)

theorem C8_witness :
    format_solution [⟨"101", "T", "S", 1⟩] 1 1 c8AssignA =
      format_solution [⟨"101", "T", "S", 1⟩] 1 1 c8AssignB :=
  C8_decode_deterministic [⟨"101", "T", "S", 1⟩] 1 1 c8AssignA c8AssignB (by decide)

/-- C9: on an empty requirement list every assignment satisfies the (empty)
constraint model, yet `solve` under a feasible verdict does not return an
empty timetable — `pd.DataFrame([])` has no columns, so the
`sort_values(by=['班級', ...])` call raises `KeyError` before any result is
returned. -/
theorem C9_empty_input_decode_error (days periods : Nat) (a : Nat → Nat → Nat → Bool) :
    satisfiesConstraints [] days periods a ∧
    solve [] days periods .feasible a = .error "KeyError: sort column" := by
  refine ⟨⟨?_, ?_, ?_⟩, rfl⟩
  · intro c hc
    exact absurd hc (Nat.not_lt_zero c)
  · intro cls hcls
    simp [all_classes] at hcls
  · intro t ht
    simp [all_teachers] at ht

/-- A zero-hour requirement next to a one-hour requirement. -/
def c10Courses : List Course := [⟨"101", "T", "Zero", 0⟩, ⟨"101", "T", "One", 1⟩]

/-- Assignment scheduling only the one-hour requirement. -/
def c10Assign : Nat → Nat → Nat → Bool := fun c _ _ => c == 1

/-- The timetable decoded for `c10Assign`: one row, none for requirement 0. -/
def c10TT : List Row := [⟨1, "101", "第 1 節", "週一", "One", "T", 0, 0⟩]

/-- C10: a requirement with `hours = 0` raises no error and does not make the
model infeasible — its hour-total constraint is `sum = 0`, the shown
assignment satisfies all constraints, and `solve` succeeds with a timetable
containing no entry for that requirement. -/
theorem C10_zero_hours_feasible :
    satisfiesConstraints c10Courses 1 1 c10Assign ∧
    solve c10Courses 1 1 .feasible c10Assign = .ok (some c10TT) ∧
    c10TT.countP (fun r => r.req == 0) = 0 :=
  ⟨by decide, rfl, rfl⟩

/-! ### Counting rows of the decoded timetable. -/

lemma count_req_eq_trueCount {n days periods : Nat} {a : Nat → Nat → Nat → Bool}
    {c : Nat} (hc : c < n) :
    ((varKeys n days periods).countP fun t => a t.1 t.2.1 t.2.2 && t.1 == c) =
      ∑ d in Finset.range days, ∑ p in Finset.range periods,
        if a c d p then 1 else 0 := by
  rw [varKeys_countP]
  have hpt : ∀ c' ∈ Finset.range n,
      (∑ d in Finset.range days, ∑ p in Finset.range periods,
        if (a c' d p && (c' == c)) = true then 1 else 0)
      = if c' = c then (∑ d in Finset.range days, ∑ p in Finset.range periods,
          if a c' d p then 1 else 0) else 0 := by
    intro c' _
    by_cases hcc : c' = c
    · simp [hcc]
    · simp [beq_iff_eq, hcc]
  rw [Finset.sum_congr rfl hpt, sum_range_ite_point, if_pos hc]

/-- C1: for every feasible assignment, the hour-total constraint pins the sum
of each requirement's variables to exactly its `hours` value, and the decoded
timetable contains exactly that many rows originating from that requirement. -/
theorem C1_hour_totals (courses : List Course) (days periods : Nat)
    (a : Nat → Nat → Nat → Bool) (hsat : satisfiesConstraints courses days periods a)
    (tt : List Row) (hok : format_solution courses days periods a = .ok tt)
    (c : Nat) (hc : c < courses.length) :
    courseVarsSum days periods a c = (courses.getD c cdefault).hours ∧
    ((tt.countP fun r => r.req == c) : Int) = (courses.getD c cdefault).hours := by
  have hhour := hsat.1 c hc
  refine ⟨hhour, ?_⟩
  rw [format_ok_countP hok]
  have hpred : (fun t : Nat × Nat × Nat =>
        a t.1 t.2.1 t.2.2 && ((mkRowD courses t).req == c))
      = fun t : Nat × Nat × Nat => a t.1 t.2.1 t.2.2 && (t.1 == c) := by
    funext t
    rw [mkRowD_req]
  rw [hpred, count_req_eq_trueCount hc, ← hhour, courseVarsSum_eq]
  push_cast
  simp [boolVal]

theorem C1_witness :
    courseVarsSum 1 2 demoAssign 0 = 1 ∧
    ((demoTT.countP fun r => r.req == 0) : Int) = 1 :=
  C1_hour_totals demoCourses 1 2 demoAssign (by decide) demoTT rfl 0 (by decide)


lemma count_group_slot (n days periods : Nat) (a : Nat → Nat → Nat → Bool)
    (g : Nat → Bool) (d0 p0 : Nat) (hd : d0 < days) (hp : p0 < periods) :
    ((varKeys n days periods).countP
        fun t => a t.1 t.2.1 t.2.2 && (g t.1 && (t.2.1 == d0) && (t.2.2 == p0)))
      = ∑ i in Finset.range n, if g i ∧ a i d0 p0 then 1 else 0 := by
  rw [varKeys_countP]
  apply Finset.sum_congr rfl
  intro c' _
  by_cases hg : g c'
  · have h1 : ∀ d ∈ Finset.range days, (∑ p in Finset.range periods,
        if (a c' d p && (g c' && (d == d0) && (p == p0))) = true then 1 else 0)
        = if d = d0 then (if a c' d0 p0 then 1 else 0) else 0 := by
      intro d _
      by_cases hdd : d = d0
      · rw [if_pos hdd]
        have h2 : ∀ p ∈ Finset.range periods,
            (if (a c' d p && (g c' && (d == d0) && (p == p0))) = true then 1 else 0)
            = if p = p0 then (if a c' d0 p then 1 else 0) else 0 := by
          intro p _
          by_cases hpp : p = p0
          · simp [hg, hdd, hpp]
          · simp [beq_iff_eq, hpp]
        rw [Finset.sum_congr rfl h2, sum_range_ite_point, if_pos hp]
      · have h2 : ∀ p ∈ Finset.range periods,
            (if (a c' d p && (g c' && (d == d0) && (p == p0))) = true then 1 else 0)
            = 0 := by
          intro p _
          simp [beq_iff_eq, hdd]
        rw [Finset.sum_congr rfl h2, if_neg hdd]
        simp
    rw [Finset.sum_congr rfl h1, sum_range_ite_point, if_pos hd]
    simp [hg]
  · have h1 : ∀ d ∈ Finset.range days, (∑ p in Finset.range periods,
        if (a c' d p && (g c' && (d == d0) && (p == p0))) = true then 1 else 0)
        = 0 := by
      intro d _
      have h2 : ∀ p ∈ Finset.range periods,
          (if (a c' d p && (g c' && (d == d0) && (p == p0))) = true then 1 else 0)
          = 0 := by
        intro p _
        simp [hg]
      rw [Finset.sum_congr rfl h2]
      simp
    rw [Finset.sum_congr rfl h1]
    simp [hg]

lemma count_cast_eq_slotGroupSum (n : Nat) (g : Nat → Bool)
    (a : Nat → Nat → Nat → Bool) (d p : Nat) :
    (((∑ i in Finset.range n, if g i ∧ a i d p then 1 else 0 : Nat)) : Int)
      = slotGroupSum a ((List.range n).filter g) d p := by
  rw [slotGroupSum_filter]
  push_cast
  apply Finset.sum_congr rfl
  intro i _
  by_cases hg : g i <;> by_cases ha : a i d p <;> simp [hg, ha, boolVal]

lemma countP_out_of_grid (n days periods : Nat) (a : Nat → Nat → Nat → Bool)
    (g : Nat → Bool) (d0 p0 : Nat) (h : ¬ (d0 < days ∧ p0 < periods)) :
    ((varKeys n days periods).countP
        fun t => a t.1 t.2.1 t.2.2 && (g t.1 && (t.2.1 == d0) && (t.2.2 == p0)))
      = 0 := by
  rw [List.countP_eq_zero]
  intro t ht
  obtain ⟨_, htd, htp⟩ := mem_varKeys.mp ht
  intro hcontra
  simp only [Bool.and_eq_true, beq_iff_eq] at hcontra
  have hde : t.2.1 = d0 := hcontra.2.1.2
  have hpe : t.2.2 = p0 := hcontra.2.2
  rcases not_and_or.mp h with hcase | hcase
  · omega
  · omega

lemma format_count_slot_le_one {courses : List Course} {days periods : Nat}
    {a : Nat → Nat → Nat → Bool} {tt : List Row}
    (hok : format_solution courses days periods a = .ok tt)
    (g : Nat → Bool) (sel : Row → Bool) (d p : Nat)
    (hsel : ∀ tr : Nat × Nat × Nat,
      sel (mkRowD courses tr) = (g tr.1 && (tr.2.1 == d) && (tr.2.2 == p)))
    (hcon : d < days → p < periods →
      slotGroupSum a ((List.range courses.length).filter g) d p ≤ 1) :
    tt.countP sel ≤ 1 := by
  rw [format_ok_countP hok]
  have hpred : (fun tr : Nat × Nat × Nat => a tr.1 tr.2.1 tr.2.2 && sel (mkRowD courses tr))
      = fun tr : Nat × Nat × Nat => a tr.1 tr.2.1 tr.2.2 &&
          (g tr.1 && (tr.2.1 == d) && (tr.2.2 == p)) := by
    funext tr
    rw [hsel]
  rw [hpred]
  by_cases hgrid : d < days ∧ p < periods
  · rw [count_group_slot courses.length days periods a g d p hgrid.1 hgrid.2]
    have hle := hcon hgrid.1 hgrid.2
    have hcast := count_cast_eq_slotGroupSum courses.length g a d p
    have hint : ((∑ i in Finset.range courses.length,
        if g i ∧ a i d p then 1 else 0 : Nat) : Int) ≤ 1 := by
      rw [hcast]
      exact hle
    exact_mod_cast hint
  · rw [countP_out_of_grid courses.length days periods a g d p hgrid]
    exact Nat.zero_le 1

/-- C2: every timetable decoded from a constraint-satisfying assignment has,
for every class identifier and every slot, at most one row carrying that
class, and for every teacher identifier and every slot, at most one row
carrying that teacher. -/
theorem C2_exclusivity (courses : List Course) (days periods : Nat)
    (a : Nat → Nat → Nat → Bool) (hsat : satisfiesConstraints courses days periods a)
    (tt : List Row) (hok : format_solution courses days periods a = .ok tt)
    (cls t : String) (d p : Nat) :
    (tt.countP fun r => r.className == cls && (r.dayIdx == d) && (r.periodIdx == p)) ≤ 1 ∧
    (tt.countP fun r => r.teacher == t && (r.dayIdx == d) && (r.periodIdx == p)) ≤ 1 := by
  constructor
  · apply format_count_slot_le_one hok
      (fun i => (courses.getD i cdefault).className == cls) _ d p
    · intro tr
      rfl
    · intro hd hp
      by_cases hin : ∃ i, i < courses.length ∧ (courses.getD i cdefault).className = cls
      · obtain ⟨j, hj, hjc⟩ := hin
        have hmem : cls ∈ all_classes courses := hjc ▸ mem_all_classes hj
        exact hsat.2.1 cls hmem d hd p hp
      · push_neg at hin
        have hfil : ((List.range courses.length).filter
            fun i => (courses.getD i cdefault).className == cls) = [] := by
          rw [List.filter_eq_nil_iff]
          intro i hi
          have hne := hin i (List.mem_range.mp hi)
          simp only [beq_iff_eq]
          simpa using hne
        rw [hfil]
        simp [slotGroupSum]
  · apply format_count_slot_le_one hok
      (fun i => (courses.getD i cdefault).teacher == t) _ d p
    · intro tr
      rfl
    · intro hd hp
      by_cases hin : ∃ i, i < courses.length ∧ (courses.getD i cdefault).teacher = t
      · obtain ⟨j, hj, hjc⟩ := hin
        have hmem : t ∈ all_teachers courses := hjc ▸ mem_all_teachers hj
        exact hsat.2.2 t hmem d hd p hp
      · push_neg at hin
        have hfil : ((List.range courses.length).filter
            fun i => (courses.getD i cdefault).teacher == t) = [] := by
          rw [List.filter_eq_nil_iff]
          intro i hi
          have hne := hin i (List.mem_range.mp hi)
          simp only [beq_iff_eq]
          simpa using hne
        rw [hfil]
        simp [slotGroupSum]

theorem C2_witness :
    (demoTT.countP fun r =>
      r.className == "101" && (r.dayIdx == 0) && (r.periodIdx == 0)) ≤ 1 ∧
    (demoTT.countP fun r =>
      r.teacher == "Wang" && (r.dayIdx == 0) && (r.periodIdx == 0)) ≤ 1 :=
  C2_exclusivity demoCourses 1 2 demoAssign (by decide) demoTT rfl "101" "Wang" 0 0

/-! ### Capacity pigeonhole. -/

/-- Summed `weekly_hours` of the courses at the given indices. -/
def groupHours (courses : List Course) (idxs : List Nat) : Int :=
  (idxs.map fun i => (courses.getD i cdefault).hours).sum

lemma group_hours_le_capacity (courses : List Course) (days periods : Nat)
    (a : Nat → Nat → Nat → Bool) (idxs : List Nat)
    (hidx : ∀ i ∈ idxs, i < courses.length)
    (hhour : hourConstraintsHold courses days periods a)
    (hexcl : ∀ d < days, ∀ p < periods, slotGroupSum a idxs d p ≤ 1) :
    groupHours courses idxs ≤ (days * periods : Int) := by
  have h1 : groupHours courses idxs
      = (idxs.map fun i => courseVarsSum days periods a i).sum := by
    unfold groupHours
    congr 1
    apply List.map_congr_left
    intro i hi
    exact (hhour i (hidx i hi)).symm
  have h2 : (idxs.map fun i => courseVarsSum days periods a i).sum
      = ∑ d in Finset.range days, ∑ p in Finset.range periods,
          slotGroupSum a idxs d p := by
    have hmap : (idxs.map fun i => courseVarsSum days periods a i)
        = idxs.map fun i => ∑ d in Finset.range days, ∑ p in Finset.range periods,
            boolVal (a i d p) := by
      apply List.map_congr_left
      intro i _
      exact courseVarsSum_eq days periods a i
    rw [hmap, list_sum_finset_sum_swap]
    apply Finset.sum_congr rfl
    intro d _
    rw [list_sum_finset_sum_swap]
    rfl
  have h3 : (∑ d in Finset.range days, ∑ p in Finset.range periods,
        slotGroupSum a idxs d p)
      ≤ ∑ d in Finset.range days, ∑ p in Finset.range periods, (1 : Int) := by
    apply Finset.sum_le_sum
    intro d hd
    apply Finset.sum_le_sum
    intro p hp
    exact hexcl d (Finset.mem_range.mp hd) p (Finset.mem_range.mp hp)
  have h4 : (∑ d in Finset.range days, ∑ p in Finset.range periods, (1 : Int))
      = (days * periods : Int) := by
    simp [Finset.sum_const, Finset.card_range]
  rw [h1, h2]
  exact le_trans h3 (le_of_eq h4)

/-- C5: whenever some single teacher's (or some single class's) summed weekly
hours exceed `days × periods`, no 0/1 assignment satisfies the constraint
model, and under the solver's resulting `INFEASIBLE` verdict `solve` returns
`None` rather than any timetable. -/
theorem C5_capacity_infeasible (courses : List Course) (days periods : Nat)
    (h : (∃ t, (days * periods : Int) <
            groupHours courses (teacher_course_indices courses t)) ∨
         (∃ cls, (days * periods : Int) <
            groupHours courses (class_course_indices courses cls))) :
    (∀ a, ¬ satisfiesConstraints courses days periods a) ∧
    (∀ a, solve courses days periods .infeasible a = .ok none) := by
  constructor
  · intro a hsat
    rcases h with ⟨t, ht⟩ | ⟨cls, hcls⟩
    · have hne : teacher_course_indices courses t ≠ [] := by
        intro hnil
        rw [hnil] at ht
        simp only [groupHours, List.map_nil, List.sum_nil] at ht
        have hnn : (0 : Int) ≤ (days * periods : Int) := by positivity
        omega
      obtain ⟨i, hi⟩ := List.exists_mem_of_ne_nil _ hne
      have himem := List.mem_filter.mp hi
      have hlt : i < courses.length := List.mem_range.mp himem.1
      have hteq : (courses.getD i cdefault).teacher = t := beq_iff_eq.mp himem.2
      have hmem : t ∈ all_teachers courses := hteq ▸ mem_all_teachers hlt
      have hcap := group_hours_le_capacity courses days periods a
        (teacher_course_indices courses t)
        (fun j hj => List.mem_range.mp (List.mem_filter.mp hj).1)
        hsat.1
        (fun d hd p hp => hsat.2.2 t hmem d hd p hp)
      omega
    · have hne : class_course_indices courses cls ≠ [] := by
        intro hnil
        rw [hnil] at hcls
        simp only [groupHours, List.map_nil, List.sum_nil] at hcls
        have hnn : (0 : Int) ≤ (days * periods : Int) := by positivity
        omega
      obtain ⟨i, hi⟩ := List.exists_mem_of_ne_nil _ hne
      have himem := List.mem_filter.mp hi
      have hlt : i < courses.length := List.mem_range.mp himem.1
      have hceq : (courses.getD i cdefault).className = cls := beq_iff_eq.mp himem.2
      have hmem : cls ∈ all_classes courses := hceq ▸ mem_all_classes hlt
      have hcap := group_hours_le_capacity courses days periods a
        (class_course_indices courses cls)
        (fun j hj => List.mem_range.mp (List.mem_filter.mp hj).1)
        hsat.1
        (fun d hd p hp => hsat.2.1 cls hmem d hd p hp)
      omega
  · intro a
    rfl

theorem C5_witness :
    (∀ a, ¬ satisfiesConstraints [⟨"101", "T", "S", 2⟩] 1 1 a) ∧
    (∀ a, solve [⟨"101", "T", "S", 2⟩] 1 1 .infeasible a = .ok none) :=
  C5_capacity_infeasible [⟨"101", "T", "S", 2⟩] 1 1 (Or.inl ⟨"T", by decide⟩)

lemma sum_range_beq_point (n c : Nat) (f : Nat → Bool) (hc : c < n) :
    (∑ i in Finset.range n, if (i == c) ∧ f i then 1 else 0) = if f c then 1 else 0 := by
  have hpt : ∀ i ∈ Finset.range n, (if ((i == c) : Bool) ∧ f i then (1 : Nat) else 0)
      = if i = c then (if f i then 1 else 0) else 0 := by
    intro i _
    by_cases hic : i = c
    · simp [hic]
    · simp [beq_iff_eq, hic]
  rw [Finset.sum_congr rfl hpt, sum_range_ite_point, if_pos hc]

/-- C7: the decoded timetable contains exactly one row per decision variable
whose solved value is 1 (and none for value 0), and it is sorted by the
three-column key — primarily `class_id`, then day index, then period index. -/
theorem C7_decoder_entries_and_order (courses : List Course) (days periods : Nat)
    (a : Nat → Nat → Nat → Bool) (tt : List Row)
    (hok : format_solution courses days periods a = .ok tt) :
    (∀ c < courses.length, ∀ d < days, ∀ p < periods,
      (tt.countP fun r => r.req == c && (r.dayIdx == d) && (r.periodIdx == p))
        = if a c d p then 1 else 0) ∧
    tt.Sorted rowLe := by
  constructor
  · intro c hc d hd p hp
    rw [format_ok_countP hok]
    exact (count_group_slot courses.length days periods a (fun i => i == c) d p hd hp).trans
      (sum_range_beq_point courses.length c (fun i => a i d p) hc)
  · obtain ⟨rows, _, _, htt⟩ := format_solution_ok hok
    rw [htt]
    exact List.sorted_insertionSort rowLe rows

theorem C7_witness :
    (∀ c < 2, ∀ d < 1, ∀ p < 2,
      (demoTT.countP fun r => r.req == c && (r.dayIdx == d) && (r.periodIdx == p))
        = if demoAssign c d p then 1 else 0) ∧
    demoTT.Sorted rowLe :=
  C7_decoder_entries_and_order demoCourses 1 2 demoAssign demoTT rfl
